import Mathlib

/-!
Shallow embedding of `batch_print.py` (batch-print-hot-folder).

Paths are modelled as `String`; the filesystem is passed explicitly as
boolean predicates (`existsF : String → Bool` for `os.path.exists`) or as
sample sequences (`Nat → Option Nat` for successive `os.path.getsize`
calls, `none` modelling an `OSError`/`FileNotFoundError`).  The pending
set `self.pending_files` is modelled as a duplicate-free `List String`.
External collaborators (the print command, the default-printer query) are
parameters.  All string/path manipulation is implemented over `String.data`
(`List Char`) so that every definition evaluates by `rfl`/`decide`.
-/

/-- Index of the last occurrence of `c` in `cs`, if any
    (models Python's `str.rfind` restricted to single characters). -/
def lastIdxOf (c : Char) : List Char → Option Nat
  | [] => none
  | a :: as =>
    match lastIdxOf c as with
    | some i => some (i + 1)
    | none => if a = c then some 0 else none

/-- Models `os.path.basename` on POSIX: everything after the last `'/'`. -/
def basename (s : String) : String :=
  match lastIdxOf '/' s.data with
  | none => s
  | some i => String.mk (s.data.drop (i + 1))

/-- Models `os.path.join(d, f)` on POSIX for two components:
    if `f` is absolute it wins; otherwise a `'/'` separates unless `d`
    is empty or already ends in `'/'`. -/
def osJoin (d f : String) : String :=
  if ['/'].isPrefixOf f.data then f
  else if d.data = [] ∨ ['/'].isSuffixOf d.data then String.mk (d.data ++ f.data)
  else String.mk (d.data ++ '/' :: f.data)

/-- Models `os.path.splitext`: splits at the last `'.'` of the final path
    component, unless that component consists only of leading dots up to
    the split point (so `.bashrc` has no extension). -/
def splitext (s : String) : String × String :=
  let cs := s.data
  match lastIdxOf '.' cs with
  | none => (s, "")
  | some d =>
    let base : Nat :=
      match lastIdxOf '/' cs with
      | none => 0
      | some k => k + 1
    if base ≤ d ∧ ((cs.take d).drop base).any (fun c => c ≠ '.') then
      (String.mk (cs.take d), String.mk (cs.drop d))
    else (s, "")

/-- Python's `sub in s` substring test. -/
def strContains (s sub : String) : Bool :=
  (List.range (s.data.length + 1)).any (fun i => sub.data.isPrefixOf (s.data.drop i))

/-- Strict lexicographic order on character lists by code point
    (Python's `<` on `str`; for UTF-8 this coincides with byte order). -/
def lexLt : List Char → List Char → Bool
  | _, [] => false
  | [], _ :: _ => true
  | a :: as, b :: bs => a < b || (a = b && lexLt as bs)

/-- Non-strict lexicographic order on character lists by code point
    (Python's `<=` on `str`). -/
def lexLe : List Char → List Char → Bool
  | [], _ => true
  | _ :: _, [] => false
  | a :: as, b :: bs => a < b || (a = b && lexLe as bs)

/-- The comparison `sorted(..., key=lambda x: os.path.basename(x))` uses
    (`batch_print.py:112`). -/
def basenameLe (a b : String) : Bool :=
  lexLe (basename a).data (basename b).data

/-- Strict version of `basenameLe`, for stating strict ascending order. -/
def basenameLt (a b : String) : Bool :=
  lexLt (basename a).data (basename b).data

/-- The three externally visible actions a drain cycle performs on a file:
    a dispatch to the print gateway (`print_file`), and a relocation into
    the success or error folder (`move_to_success` / `move_to_error`). -/
inductive FileAction where
  | dispatch (p : String)
  | moveSuccess (p : String)
  | moveError (p : String)
deriving DecidableEq, Repr

/-- The ordering `sorted(existing_files, key=...)` sorts by, as a
    `Prop`-valued relation. -/
def basenameLeP (a b : String) : Prop := basenameLe a b = true

instance : DecidableRel basenameLeP := fun a b => by
  unfold basenameLeP; infer_instance

/-- Lines 108–112 of `process_pending_files`: snapshot the pending set,
    keep only paths that still exist, sort by basename.  Python's
    `sorted` is a stable sort; every stable sort of a list under the same
    total preorder produces the same output, so the stable
    `List.insertionSort` models it exactly. -/
def drainQueue (pending : List String) (existsF : String → Bool) : List String :=
  (pending.filter existsF).insertionSort basenameLeP

/-- Models `set.discard`: remove `p` from the pending set. -/
def discardPath (pending : List String) (p : String) : List String :=
  pending.filter (fun q => q ≠ p)

/-- Lines 117–135 of `process_pending_files`: walk the sorted snapshot;
    a file that is not ready is skipped (`continue`); a ready file is
    printed, then moved to the success or error folder according to the
    print outcome, then discarded from the pending set.
    Returns the final pending set and the list of actions performed. -/
def processLoop (ready printOk : String → Bool) :
    List String → List String → List String × List FileAction
  | [], pending => (pending, [])
  | p :: rest, pending =>
    if ready p then
      let res := processLoop ready printOk rest (discardPath pending p)
      (res.1,
        FileAction.dispatch p ::
          (if printOk p then FileAction.moveSuccess p else FileAction.moveError p) :: res.2)
    else
      processLoop ready printOk rest pending

/-- Models `PrintHandler.process_pending_files` (lines 103–135): early return on
    an empty pending set, otherwise drain and run the processing loop. -/
def processPendingFiles (pending : List String) (existsF ready printOk : String → Bool) :
    List String × List FileAction :=
  if pending = [] then (pending, [])
  else processLoop ready printOk (drainQueue pending existsF) pending

/-- Models `PrintHandler._is_file_ready` (lines 137–152).  `sizes k` is the
    result of the `k`-th `os.path.getsize` call in this invocation
    (`none` = the call raised).  Attempt `i` compares samples `2*i` and
    `2*i+1`; a raise returns `false` at once; equality of two non-zero
    samples returns `true`; otherwise the next attempt runs, up to
    `maxAttempts` (the source default is 3). -/
def isFileReadyGo (sizes : Nat → Option Nat) : Nat → Nat → Bool
  | 0, _ => false
  | fuel + 1, i =>
    match sizes (2 * i), sizes (2 * i + 1) with
    | some s1, some s2 =>
      if s1 = s2 ∧ s1 > 0 then true else isFileReadyGo sizes fuel (i + 1)
    | _, _ => false

/-- Entry point of `_is_file_ready`, starting at attempt 0. -/
def isFileReady (sizes : Nat → Option Nat) (maxAttempts : Nat) : Bool :=
  isFileReadyGo sizes maxAttempts 0

/-- Python truthiness of an optional string (`if not printer_to_use`):
    `None` and `""` are falsy. -/
def pyTruthy : Option String → Bool
  | none => false
  | some s => !(s.data = [])

/-- Models `PrintHandler.print_file` (lines 154–214), with its collaborators as
    parameters: `printerName` is `self.config.printer_name`,
    `defaultPrinter` the result of `get_default_printer()` at this moment,
    `system` the value of `platform.system()`, and `submitOk path` whether
    the platform print call for `path` succeeds (`false` = it raised).
    Resolution: a falsy configured printer falls back to the default
    printer; if that is falsy too the function returns `false`.  On a
    platform other than Windows/Darwin/Linux it returns `false`.  The
    initial `os.path.getsize` (line 157) is only used for logging and is
    not modelled. -/
def printFile (printerName defaultPrinter : Option String) (system : String)
    (submitOk : String → Bool) (path : String) : Bool :=
  let printerToUse := if pyTruthy printerName then printerName else defaultPrinter
  if pyTruthy printerToUse then
    if system = "Windows" ∨ system = "Darwin" ∨ system = "Linux" then submitOk path
    else false
  else false

/-- Models `HotFolderConfig` (lines 64–76): the directory-creation side effect is
    not modelled; `printerName` holds the value after `__init__`'s
    `printer_name if printer_name else None` normalization. -/
structure HotFolderCfg where
  name : String
  watchPath : String
  printerName : Option String
  successFolder : String
  errorFolder : String

/-- Models `HotFolderConfig.__init__`'s printer normalization (line 70):
    a falsy printer name (absent or empty) becomes `None`. -/
def mkPrinterName (printerName : Option String) : Option String :=
  if pyTruthy printerName then printerName else none

/-- Models `PrintHandler.on_created` (lines 87–101): directory events are
    ignored; a path in which the success-folder string or the
    error-folder string occurs as a SUBSTRING is ignored; otherwise the
    path is added to the pending set (set add: no-op when present). -/
def onCreated (cfg : HotFolderCfg) (pending : List String)
    (isDirectory : Bool) (srcPath : String) : List String :=
  if isDirectory then pending
  else if strContains srcPath cfg.successFolder || strContains srcPath cfg.errorFolder then
    pending
  else if srcPath ∈ pending then pending else pending ++ [srcPath]

/-- The destination candidate the relocation loop of
    `move_to_success`/`move_to_error` (lines 219–230 / 242–253) examines
    at step `k`: step 0 is `join(dir, filename)`; step `k ≥ 1` is
    `join(dir, f"{name}_{k}{ext}")` with `(name, ext) = splitext(filename)`. -/
def destCandidate (destDir filename : String) : Nat → String
  | 0 => osJoin destDir filename
  | k + 1 =>
    let ne := splitext filename
    osJoin destDir (ne.1 ++ "_" ++ toString (k + 1) ++ ne.2)

/-- The `while os.path.exists(dest_path)` loop (lines 224–230), with
    explicit fuel: `none` means the loop has not terminated within `fuel`
    iterations (on a real file system the loop always terminates because
    only finitely many paths exist). -/
def resolveDestLoop (existsF : String → Bool) (destDir filename : String) :
    Nat → Nat → Option String
  | 0, _ => none
  | fuel + 1, k =>
    let dest := destCandidate destDir filename k
    if existsF dest then resolveDestLoop existsF destDir filename fuel (k + 1)
    else some dest

/-- Destination-path computation shared by `move_to_success` and
    `move_to_error`: `filename = os.path.basename(file_path)`, then the
    collision loop starting at the plain target. -/
def moveDestination (existsF : String → Bool) (destDir srcPath : String)
    (fuel : Nat) : Option String :=
  resolveDestLoop existsF destDir (basename srcPath) fuel 0

/-- JSON values as `json.load` produces them (numbers restricted to
    integers, which covers every value the configuration schema uses). -/
inductive JValue where
  | null
  | bool (b : Bool)
  | num (n : Int)
  | str (s : String)
  | arr (xs : List JValue)
  | obj (fields : List (String × JValue))

/-- Python dict lookup on a JSON object's field list (first match). -/
def jIndex (fields : List (String × JValue)) (key : String) : Option JValue :=
  match fields with
  | [] => none
  | (k, v) :: rest => if k = key then some v else jIndex rest key

/-- Python truthiness of a JSON value. -/
def jTruthy : JValue → Bool
  | .null => false
  | .bool b => b
  | .num n => !(n == 0)
  | .str s => !s.data.isEmpty
  | .arr xs => !xs.isEmpty
  | .obj fs => !fs.isEmpty

/-- One hot-folder entry as `load_config` builds it, before any type
    check (Python performs none: the values are stored as-is). -/
structure RawHotFolder where
  name : JValue
  watchPath : JValue
  printerName : Option JValue
  successFolder : JValue
  errorFolder : JValue

/-- Lines 287–298 of `load_config` for one entry of `hot_folders`:
    `folder_config.get('printer_name')` (absent → `None`), the explicit
    `== ""` check, then keyword indexing of the four required keys
    (`KeyError` when missing); `HotFolderConfig.__init__`'s truthiness
    normalization of the printer name is applied last. -/
def parseHotFolderEntry : JValue → Except String RawHotFolder
  | .obj fields =>
    let pn0 := jIndex fields "printer_name"
    let pn1 := match pn0 with
      | some (.str s) => if s.data.isEmpty then none else pn0
      | _ => pn0
    let pn2 := match pn1 with
      | some v => if jTruthy v then some v else none
      | none => none
    match jIndex fields "name", jIndex fields "watch_path",
        jIndex fields "success_folder", jIndex fields "error_folder" with
    | some n, some w, some s, some e =>
      .ok { name := n, watchPath := w, printerName := pn2,
            successFolder := s, errorFolder := e }
    | _, _, _, _ => .error "KeyError"
  | _ => .error "TypeError: entry is not indexable by string"

/-- Models `BatchPrintService.load_config` (lines 276–305) applied to the parsed
    JSON document: `config.get('poll_interval', 5)` and
    `config.get('hot_folders', [])` default missing keys; every raised
    exception becomes `.error` (the method logs and re-raises).  A
    non-list `hot_folders` follows Python's `for` semantics: iterating an
    empty `str`/`dict` yields no entries, a non-empty one fails on entry
    indexing, and other values are not iterable. -/
def loadConfig (config : JValue) : Except String (JValue × List RawHotFolder) :=
  match config with
  | .obj fields =>
    let pollInterval := (jIndex fields "poll_interval").getD (.num 5)
    let foldersJ := (jIndex fields "hot_folders").getD (.arr [])
    match foldersJ with
    | .arr entries =>
      match entries.mapM parseHotFolderEntry with
      | .ok folders => .ok (pollInterval, folders)
      | .error e => .error e
    | .str s => if s.data.isEmpty then .ok (pollInterval, []) else .error "TypeError"
    | .obj fs => if fs.isEmpty then .ok (pollInterval, []) else .error "TypeError"
    | _ => .error "TypeError: hot_folders is not iterable"
  | _ => .error "AttributeError"

/-- Strict version of `basenameLeP`. -/
def basenameLtP (a b : String) : Prop := basenameLt a b = true

theorem lexLe_total : ∀ as bs : List Char, lexLe as bs = true ∨ lexLe bs as = true
  | [], _ => Or.inl rfl
  | _ :: _, [] => Or.inr rfl
  | a :: as, b :: bs => by
    rcases lt_trichotomy a b with h | h | h
    · left; simp [lexLe, h]
    · subst h
      rcases lexLe_total as bs with ih | ih
      · left; simp [lexLe, ih]
      · right; simp [lexLe, ih]
    · right; simp [lexLe, h]

theorem lexLe_trans : ∀ as bs cs : List Char,
    lexLe as bs = true → lexLe bs cs = true → lexLe as cs = true
  | [], bs, cs => by
    intro _ _; cases cs <;> rfl
  | _ :: _, [], _ => by intro h _; exact absurd h (by simp [lexLe])
  | _ :: _, _ :: _, [] => by intro _ h; exact absurd h (by simp [lexLe])
  | a :: as, b :: bs, c :: cs => by
    intro h1 h2
    simp only [lexLe, Bool.or_eq_true, Bool.and_eq_true, decide_eq_true_eq] at h1 h2 ⊢
    rcases h1 with h1 | ⟨rfl, h1⟩
    · rcases h2 with h2 | ⟨rfl, _⟩
      · exact Or.inl (lt_trans h1 h2)
      · exact Or.inl h1
    · rcases h2 with h2 | ⟨rfl, h2⟩
      · exact Or.inl h2
      · exact Or.inr ⟨rfl, lexLe_trans as bs cs h1 h2⟩

theorem lexLt_asymm : ∀ as bs : List Char,
    lexLt as bs = true → lexLt bs as = true → False
  | as, [] => by intro h _; cases as <;> simp [lexLt] at h
  | [], _ :: _ => by intro _ h; simp [lexLt] at h
  | a :: as, b :: bs => by
    intro h1 h2
    simp only [lexLt, Bool.or_eq_true, Bool.and_eq_true, decide_eq_true_eq] at h1 h2
    rcases h1 with h1 | ⟨rfl, h1⟩
    · rcases h2 with h2 | ⟨h2, _⟩
      · exact absurd h2 (lt_asymm h1)
      · exact absurd h1 (h2 ▸ lt_irrefl _)
    · rcases h2 with h2 | ⟨_, h2⟩
      · exact absurd h2 (lt_irrefl _)
      · exact lexLt_asymm as bs h1 h2

theorem lexLe_iff : ∀ as bs : List Char,
    lexLe as bs = true ↔ (lexLt as bs = true ∨ as = bs)
  | [], [] => by simp [lexLe, lexLt]
  | [], _ :: _ => by simp [lexLe, lexLt]
  | _ :: _, [] => by simp [lexLe, lexLt]
  | a :: as, b :: bs => by
    simp only [lexLe, lexLt, Bool.or_eq_true, Bool.and_eq_true, decide_eq_true_eq,
      List.cons.injEq]
    constructor
    · rintro (h | ⟨rfl, h⟩)
      · exact Or.inl (Or.inl h)
      · rcases (lexLe_iff as bs).mp h with h' | rfl
        · exact Or.inl (Or.inr ⟨rfl, h'⟩)
        · exact Or.inr ⟨rfl, rfl⟩
    · rintro ((h | ⟨rfl, h⟩) | ⟨rfl, rfl⟩)
      · exact Or.inl h
      · exact Or.inr ⟨rfl, (lexLe_iff as bs).mpr (Or.inl h)⟩
      · exact Or.inr ⟨rfl, (lexLe_iff as as).mpr (Or.inr rfl)⟩

instance : IsTotal String basenameLeP :=
  ⟨fun a b => lexLe_total (basename a).data (basename b).data⟩

instance : IsTrans String basenameLeP :=
  ⟨fun a b c => lexLe_trans (basename a).data (basename b).data (basename c).data⟩

instance : IsAntisymm String basenameLtP :=
  ⟨fun _ _ h1 h2 => (lexLt_asymm _ _ h1 h2).elim⟩

/-- A weak basename comparison together with distinct basenames is strict. -/
theorem basenameLtP_of_le_of_ne {a b : String} (hle : basenameLeP a b)
    (hne : basename a ≠ basename b) : basenameLtP a b := by
  rcases (lexLe_iff _ _).mp hle with h | h
  · exact h
  · exact absurd (String.ext h) hne

theorem drainQueue_perm (pending : List String) (existsF : String → Bool) :
    (drainQueue pending existsF).Perm (pending.filter existsF) :=
  List.perm_insertionSort basenameLeP _

theorem mem_drainQueue {pending : List String} {existsF : String → Bool} {p : String} :
    p ∈ drainQueue pending existsF ↔ p ∈ pending ∧ existsF p = true := by
  rw [(drainQueue_perm pending existsF).mem_iff]
  exact List.mem_filter

theorem drainQueue_sorted (pending : List String) (existsF : String → Bool) :
    List.Sorted basenameLeP (drainQueue pending existsF) :=
  List.sorted_insertionSort basenameLeP _

theorem drainQueue_nodup {pending : List String} (existsF : String → Bool)
    (hnd : pending.Nodup) : (drainQueue pending existsF).Nodup :=
  (hnd.filter existsF).perm (drainQueue_perm pending existsF).symm

theorem drainQueue_sorted_strict (pending : List String) (existsF : String → Bool)
    (hinj : (pending.filter existsF).Pairwise (fun a b => basename a ≠ basename b)) :
    List.Sorted basenameLtP (drainQueue pending existsF) := by
  have hne : (drainQueue pending existsF).Pairwise (fun a b => basename a ≠ basename b) :=
    ((drainQueue_perm pending existsF).pairwise_iff (fun h e => h e.symm)).mpr hinj
  exact ((drainQueue_sorted pending existsF).and hne).imp
    (fun h => basenameLtP_of_le_of_ne h.1 h.2)

theorem drainQueue_perm_invariant (pending pending2 : List String) (existsF : String → Bool)
    (hinj : (pending.filter existsF).Pairwise (fun a b => basename a ≠ basename b))
    (hperm : pending.Perm pending2) :
    drainQueue pending2 existsF = drainQueue pending existsF := by
  have hfp : (pending2.filter existsF).Perm (pending.filter existsF) :=
    hperm.symm.filter existsF
  have hinj2 : (pending2.filter existsF).Pairwise (fun a b => basename a ≠ basename b) :=
    (hfp.pairwise_iff (fun h e => h e.symm)).mpr hinj
  have hp : (drainQueue pending2 existsF).Perm (drainQueue pending existsF) :=
    (drainQueue_perm _ _).trans (hfp.trans (drainQueue_perm _ _).symm)
  exact List.eq_of_perm_of_sorted hp
    (drainQueue_sorted_strict pending2 existsF hinj2)
    (drainQueue_sorted_strict pending existsF hinj)

theorem processLoop_subset (ready printOk : String → Bool) (l : List String) :
    ∀ pen q, q ∈ (processLoop ready printOk l pen).1 → q ∈ pen := by
  induction l with
  | nil => intro pen q h; simpa [processLoop] using h
  | cons p rest ih =>
    intro pen q h
    by_cases hr : ready p = true
    · simp only [processLoop, hr, if_true] at h
      exact (List.mem_filter.mp (ih _ q h)).1
    · simp only [processLoop, hr, if_false, Bool.false_eq_true] at h
      exact ih _ q h

theorem processLoop_mem_preserved (ready printOk : String → Bool) (l : List String) :
    ∀ pen p, p ∈ pen → (ready p = false ∨ p ∉ l) →
      p ∈ (processLoop ready printOk l pen).1 := by
  induction l with
  | nil => intro pen p hp _; simpa [processLoop] using hp
  | cons q rest ih =>
    intro pen p hp hcond
    by_cases hr : ready q = true
    · simp only [processLoop, hr, if_true]
      apply ih
      · have hpq : p ≠ q := by
          rcases hcond with hc | hc
          · intro e; rw [e] at hc; rw [hr] at hc; cases hc
          · intro e; exact hc (e ▸ List.mem_cons_self q rest)
        exact List.mem_filter.mpr ⟨hp, by simpa using hpq⟩
      · rcases hcond with hc | hc
        · exact Or.inl hc
        · exact Or.inr (fun h => hc (List.mem_cons_of_mem _ h))
    · simp only [processLoop, hr, if_false, Bool.false_eq_true]
      apply ih pen p hp
      rcases hcond with hc | hc
      · exact Or.inl hc
      · exact Or.inr (fun h => hc (List.mem_cons_of_mem _ h))

theorem processLoop_dispatch_mem (ready printOk : String → Bool) (l : List String) :
    ∀ pen p, FileAction.dispatch p ∈ (processLoop ready printOk l pen).2 →
      p ∈ l ∧ ready p = true := by
  induction l with
  | nil => intro pen p h; simp [processLoop] at h
  | cons q rest ih =>
    intro pen p h
    by_cases hr : ready q = true
    · simp only [processLoop, hr, if_true] at h
      rcases List.mem_cons.mp h with heq | h2
      · cases heq; exact ⟨List.mem_cons_self q rest, hr⟩
      · rcases List.mem_cons.mp h2 with heq2 | h3
        · by_cases hpk : printOk q = true <;> simp [hpk] at heq2
        · rcases ih _ p h3 with ⟨hm, hrd⟩
          exact ⟨List.mem_cons_of_mem _ hm, hrd⟩
    · simp only [processLoop, hr, if_false, Bool.false_eq_true] at h
      rcases ih _ p h with ⟨hm, hrd⟩
      exact ⟨List.mem_cons_of_mem _ hm, hrd⟩

theorem processLoop_moveSuccess_mem (ready printOk : String → Bool) (l : List String) :
    ∀ pen p, FileAction.moveSuccess p ∈ (processLoop ready printOk l pen).2 →
      p ∈ l ∧ ready p = true ∧ printOk p = true := by
  induction l with
  | nil => intro pen p h; simp [processLoop] at h
  | cons q rest ih =>
    intro pen p h
    by_cases hr : ready q = true
    · simp only [processLoop, hr, if_true] at h
      rcases List.mem_cons.mp h with heq | h2
      · cases heq
      · rcases List.mem_cons.mp h2 with heq2 | h3
        · by_cases hpk : printOk q = true
          · simp only [hpk, if_true] at heq2
            cases heq2
            exact ⟨List.mem_cons_self q rest, hr, hpk⟩
          · simp [hpk] at heq2
        · rcases ih _ p h3 with ⟨hm, hrd, hpk⟩
          exact ⟨List.mem_cons_of_mem _ hm, hrd, hpk⟩
    · simp only [processLoop, hr, if_false, Bool.false_eq_true] at h
      rcases ih _ p h with ⟨hm, hrd, hpk⟩
      exact ⟨List.mem_cons_of_mem _ hm, hrd, hpk⟩

theorem processLoop_moveError_mem (ready printOk : String → Bool) (l : List String) :
    ∀ pen p, FileAction.moveError p ∈ (processLoop ready printOk l pen).2 →
      p ∈ l ∧ ready p = true ∧ printOk p = false := by
  induction l with
  | nil => intro pen p h; simp [processLoop] at h
  | cons q rest ih =>
    intro pen p h
    by_cases hr : ready q = true
    · simp only [processLoop, hr, if_true] at h
      rcases List.mem_cons.mp h with heq | h2
      · cases heq
      · rcases List.mem_cons.mp h2 with heq2 | h3
        · by_cases hpk : printOk q = true
          · simp [hpk] at heq2
          · simp only [hpk, if_false, Bool.false_eq_true] at heq2
            cases heq2
            exact ⟨List.mem_cons_self q rest, hr, Bool.eq_false_iff.mpr hpk⟩
        · rcases ih _ p h3 with ⟨hm, hrd, hpk⟩
          exact ⟨List.mem_cons_of_mem _ hm, hrd, hpk⟩
    · simp only [processLoop, hr, if_false, Bool.false_eq_true] at h
      rcases ih _ p h with ⟨hm, hrd, hpk⟩
      exact ⟨List.mem_cons_of_mem _ hm, hrd, hpk⟩

theorem processLoop_count_dispatch (ready printOk : String → Bool) (l : List String) :
    ∀ pen p, l.Nodup →
      (processLoop ready printOk l pen).2.count (FileAction.dispatch p) =
        if p ∈ l ∧ ready p = true then 1 else 0 := by
  induction l with
  | nil => intro pen p _; simp [processLoop]
  | cons q rest ih =>
    intro pen p hnd
    rcases List.nodup_cons.mp hnd with ⟨hq, hnd'⟩
    by_cases hr : ready q = true
    · simp only [processLoop, hr, if_true]
      rw [List.count_cons, List.count_cons, ih _ p hnd']
      by_cases hpq : p = q
      · subst hpq
        simp [hq, hr]
        split <;> simp_all
      · have h1 : (FileAction.dispatch q == FileAction.dispatch p) = false := by
          simp [hpq, Ne.symm hpq]
        have h2 : ((if printOk q = true then FileAction.moveSuccess q
            else FileAction.moveError q) == FileAction.dispatch p) = false := by
          split <;> simp
        rw [h1, h2]
        simp only [List.mem_cons]
        have : (p = q ∨ p ∈ rest) ∧ ready p = true ↔ p ∈ rest ∧ ready p = true := by
          constructor
          · rintro ⟨hpm | hm, hrd⟩
            · exact absurd hpm hpq
            · exact ⟨hm, hrd⟩
          · rintro ⟨hm, hrd⟩; exact ⟨Or.inr hm, hrd⟩
        rw [if_congr this rfl rfl]
        split <;> simp
    · simp only [processLoop, hr, if_false, Bool.false_eq_true]
      rw [ih _ p hnd']
      have : p ∈ q :: rest ∧ ready p = true ↔ p ∈ rest ∧ ready p = true := by
        constructor
        · rintro ⟨hm, hrd⟩
          rcases List.mem_cons.mp hm with hpm | hm'
          · rw [hpm] at hrd; rw [hrd] at hr; cases hr rfl
          · exact ⟨hm', hrd⟩
        · rintro ⟨hm, hrd⟩; exact ⟨List.mem_cons_of_mem _ hm, hrd⟩
      rw [if_congr this rfl rfl]

theorem processLoop_count_moveSuccess (ready printOk : String → Bool) (l : List String) :
    ∀ pen p, l.Nodup →
      (processLoop ready printOk l pen).2.count (FileAction.moveSuccess p) =
        if p ∈ l ∧ ready p = true ∧ printOk p = true then 1 else 0 := by
  induction l with
  | nil => intro pen p _; simp [processLoop]
  | cons q rest ih =>
    intro pen p hnd
    rcases List.nodup_cons.mp hnd with ⟨hq, hnd'⟩
    by_cases hr : ready q = true
    · simp only [processLoop, hr, if_true]
      rw [List.count_cons, List.count_cons, ih _ p hnd']
      have h1 : (FileAction.dispatch q == FileAction.moveSuccess p) = false := by simp
      rw [h1]
      by_cases hpq : p = q
      · subst hpq
        have hnotrest : ¬(p ∈ rest ∧ ready p = true ∧ printOk p = true) := by
          rintro ⟨hm, _, _⟩; exact hq hm
        rw [if_neg hnotrest]
        by_cases hpk : printOk p = true
        · simp [hpk, hr]
        · simp [hpk, hr]
      · have h2 : ((if printOk q = true then FileAction.moveSuccess q
            else FileAction.moveError q) == FileAction.moveSuccess p) = false := by
          split <;> simp [Ne.symm hpq]
        rw [h2]
        simp only [List.mem_cons]
        have : (p = q ∨ p ∈ rest) ∧ ready p = true ∧ printOk p = true ↔
            p ∈ rest ∧ ready p = true ∧ printOk p = true := by
          constructor
          · rintro ⟨hpm | hm, hrest⟩
            · exact absurd hpm hpq
            · exact ⟨hm, hrest⟩
          · rintro ⟨hm, hrest⟩; exact ⟨Or.inr hm, hrest⟩
        rw [if_congr this rfl rfl]
        split <;> simp
    · simp only [processLoop, hr, if_false, Bool.false_eq_true]
      rw [ih _ p hnd']
      have : p ∈ q :: rest ∧ ready p = true ∧ printOk p = true ↔
          p ∈ rest ∧ ready p = true ∧ printOk p = true := by
        constructor
        · rintro ⟨hm, hrd, hpk⟩
          rcases List.mem_cons.mp hm with hpm | hm'
          · rw [hpm] at hrd; rw [hrd] at hr; cases hr rfl
          · exact ⟨hm', hrd, hpk⟩
        · rintro ⟨hm, hrest⟩; exact ⟨List.mem_cons_of_mem _ hm, hrest⟩
      rw [if_congr this rfl rfl]

theorem processLoop_count_moveError (ready printOk : String → Bool) (l : List String) :
    ∀ pen p, l.Nodup →
      (processLoop ready printOk l pen).2.count (FileAction.moveError p) =
        if p ∈ l ∧ ready p = true ∧ printOk p = false then 1 else 0 := by
  induction l with
  | nil => intro pen p _; simp [processLoop]
  | cons q rest ih =>
    intro pen p hnd
    rcases List.nodup_cons.mp hnd with ⟨hq, hnd'⟩
    by_cases hr : ready q = true
    · simp only [processLoop, hr, if_true]
      rw [List.count_cons, List.count_cons, ih _ p hnd']
      have h1 : (FileAction.dispatch q == FileAction.moveError p) = false := by simp
      rw [h1]
      by_cases hpq : p = q
      · subst hpq
        have hnotrest : ¬(p ∈ rest ∧ ready p = true ∧ printOk p = false) := by
          rintro ⟨hm, _, _⟩; exact hq hm
        rw [if_neg hnotrest]
        by_cases hpk : printOk p = true
        · simp [hpk, hr]
        · simp [hpk, hr, Bool.eq_false_iff.mpr hpk]
      · have h2 : ((if printOk q = true then FileAction.moveSuccess q
            else FileAction.moveError q) == FileAction.moveError p) = false := by
          split <;> simp [Ne.symm hpq]
        rw [h2]
        simp only [List.mem_cons]
        have : (p = q ∨ p ∈ rest) ∧ ready p = true ∧ printOk p = false ↔
            p ∈ rest ∧ ready p = true ∧ printOk p = false := by
          constructor
          · rintro ⟨hpm | hm, hrest⟩
            · exact absurd hpm hpq
            · exact ⟨hm, hrest⟩
          · rintro ⟨hm, hrest⟩; exact ⟨Or.inr hm, hrest⟩
        rw [if_congr this rfl rfl]
        split <;> simp
    · simp only [processLoop, hr, if_false, Bool.false_eq_true]
      rw [ih _ p hnd']
      have : p ∈ q :: rest ∧ ready p = true ∧ printOk p = false ↔
          p ∈ rest ∧ ready p = true ∧ printOk p = false := by
        constructor
        · rintro ⟨hm, hrd, hpk⟩
          rcases List.mem_cons.mp hm with hpm | hm'
          · rw [hpm] at hrd; rw [hrd] at hr; cases hr rfl
          · exact ⟨hm', hrd, hpk⟩
        · rintro ⟨hm, hrest⟩; exact ⟨List.mem_cons_of_mem _ hm, hrest⟩
      rw [if_congr this rfl rfl]

/-- A path processed as ready ends up outside the final pending set. -/
theorem processLoop_removed (ready printOk : String → Bool) (l : List String) :
    ∀ pen p, p ∈ l → ready p = true → p ∉ (processLoop ready printOk l pen).1 := by
  induction l with
  | nil => intro pen p h _; cases h
  | cons q rest ih =>
    intro pen p hl hr hmem
    by_cases hrq : ready q = true
    · simp only [processLoop, hrq, if_true] at hmem
      by_cases hpq : p = q
      · subst hpq
        have := processLoop_subset ready printOk rest _ p hmem
        have := (List.mem_filter.mp this).2
        simp at this
      · rcases List.mem_cons.mp hl with h | h
        · exact hpq h
        · exact ih _ p h hr hmem
    · simp only [processLoop, hrq, if_false, Bool.false_eq_true] at hmem
      rcases List.mem_cons.mp hl with h | h
      · rw [h] at hr; exact hrq hr
      · exact ih _ p h hr hmem

theorem isFileReadyGo_spec (sizes : Nat → Option Nat) :
    ∀ fuel i, isFileReadyGo sizes fuel i = true →
      ∃ k, i ≤ k ∧ k < i + fuel ∧
        ∃ s, sizes (2 * k) = some s ∧ sizes (2 * k + 1) = some s ∧ 0 < s := by
  intro fuel
  induction fuel with
  | zero => intro i h; simp [isFileReadyGo] at h
  | succ fuel ih =>
    intro i h
    simp only [isFileReadyGo] at h
    rcases h1 : sizes (2 * i) with _ | s1 <;> rw [h1] at h
    · simp at h
    · rcases h2 : sizes (2 * i + 1) with _ | s2 <;> rw [h2] at h
      · simp at h
      · simp only at h
        by_cases hc : s1 = s2 ∧ s1 > 0
        · exact ⟨i, le_refl i, by omega, s1, h1, by rw [h2, hc.1], hc.2⟩
        · rw [if_neg hc] at h
          rcases ih (i + 1) h with ⟨k, hk1, hk2, hs⟩
          exact ⟨k, by omega, by omega, hs⟩

/-- Reading `_is_file_ready` back: a `true` result exhibits one attempt
    whose two samples exist, are equal and non-zero. -/
theorem isFileReady_spec (sizes : Nat → Option Nat) (maxAttempts : Nat)
    (h : isFileReady sizes maxAttempts = true) :
    ∃ k, k < maxAttempts ∧
      ∃ s, sizes (2 * k) = some s ∧ sizes (2 * k + 1) = some s ∧ 0 < s := by
  rcases isFileReadyGo_spec sizes maxAttempts 0 h with ⟨k, _, hk2, hs⟩
  exact ⟨k, by omega, hs⟩

/-- A file whose two samples never agree is never declared ready. -/
theorem isFileReady_eq_false_of_changing (sizes : Nat → Option Nat) (maxAttempts : Nat)
    (h : ∀ k s1 s2, sizes (2 * k) = some s1 → sizes (2 * k + 1) = some s2 → s1 ≠ s2) :
    isFileReady sizes maxAttempts = false := by
  rcases Bool.eq_false_or_eq_true (isFileReady sizes maxAttempts) with h' | h'
  · rcases isFileReady_spec sizes maxAttempts h' with ⟨k, _, s, hs1, hs2, _⟩
    exact absurd rfl (h k s s hs1 hs2)
  · exact h'

theorem resolveDestLoop_spec (existsF : String → Bool) (dir fn : String) :
    ∀ fuel k d, resolveDestLoop existsF dir fn fuel k = some d →
      ∃ j, k ≤ j ∧ j < k + fuel ∧ d = destCandidate dir fn j ∧ existsF d = false ∧
        ∀ i, k ≤ i → i < j → existsF (destCandidate dir fn i) = true := by
  intro fuel
  induction fuel with
  | zero => intro k d h; simp [resolveDestLoop] at h
  | succ fuel ih =>
    intro k d h
    simp only [resolveDestLoop] at h
    by_cases he : existsF (destCandidate dir fn k) = true
    · rw [if_pos he] at h
      rcases ih (k + 1) d h with ⟨j, hj1, hj2, hd, hex, hall⟩
      refine ⟨j, by omega, by omega, hd, hex, fun i hi1 hi2 => ?_⟩
      rcases Nat.eq_or_lt_of_le hi1 with he' | hlt
      · rw [← he']; exact he
      · exact hall i hlt hi2
    · rw [if_neg he] at h
      injection h with h'
      refine ⟨k, le_refl k, by omega, h'.symm, ?_, fun i hi1 hi2 => (Nat.not_lt.mpr hi1 hi2).elim⟩
      rw [← h']
      exact Bool.eq_false_iff.mpr he

theorem isPrefixOf_append_self (l1 l2 : List Char) : l1.isPrefixOf (l1 ++ l2) = true := by
  induction l1 with
  | nil => simp [List.isPrefixOf]
  | cons a as ih => simp [List.isPrefixOf, ih]

/-- A string that starts with `sub` contains `sub` as a substring. -/
theorem strContains_left_append (sub tail : String) :
    strContains (sub ++ tail) sub = true := by
  unfold strContains
  rw [List.any_eq_true]
  refine ⟨0, List.mem_range.mpr (Nat.succ_pos _), ?_⟩
  rw [List.drop_zero, String.data_append]
  exact isPrefixOf_append_self sub.data tail.data

/-- C1: every path of the drained batch that passes the readiness check is
    dispatched exactly once; afterwards it is no longer in the pending
    set, whatever the dispatch outcome; on print success it is relocated
    (exactly once) to the success folder, on print failure to the error
    folder. -/
theorem claim1_ready_file_dispatched_once
    (pending : List String) (existsF ready printOk : String → Bool) (p : String)
    (hnd : pending.Nodup) (hp : p ∈ drainQueue pending existsF) (hr : ready p = true) :
    (processPendingFiles pending existsF ready printOk).2.count (FileAction.dispatch p) = 1 ∧
    p ∉ (processPendingFiles pending existsF ready printOk).1 ∧
    (printOk p = true →
      (processPendingFiles pending existsF ready printOk).2.count
        (FileAction.moveSuccess p) = 1) ∧
    (printOk p = false →
      (processPendingFiles pending existsF ready printOk).2.count
        (FileAction.moveError p) = 1) := by
  have hpend : pending ≠ [] := List.ne_nil_of_mem (mem_drainQueue.mp hp).1
  have hnd' := drainQueue_nodup existsF hnd
  simp only [processPendingFiles, if_neg hpend]
  refine ⟨?_, ?_, ?_, ?_⟩
  · rw [processLoop_count_dispatch ready printOk _ pending p hnd']
    rw [if_pos ⟨hp, hr⟩]
  · exact processLoop_removed ready printOk _ pending p hp hr
  · intro hpk
    rw [processLoop_count_moveSuccess ready printOk _ pending p hnd']
    rw [if_pos ⟨hp, hr, hpk⟩]
  · intro hpk
    rw [processLoop_count_moveError ready printOk _ pending p hnd']
    rw [if_pos ⟨hp, hr, hpk⟩]

/-- Witness for C1 at a one-element pending set. -/
theorem claim1_witness :
    (processPendingFiles ["/w/a.txt"] (fun _ => true) (fun _ => true)
        (fun _ => true)).2.count (FileAction.dispatch "/w/a.txt") = 1 ∧
    "/w/a.txt" ∉ (processPendingFiles ["/w/a.txt"] (fun _ => true) (fun _ => true)
        (fun _ => true)).1 ∧
    ((fun (_ : String) => true) "/w/a.txt" = true →
      (processPendingFiles ["/w/a.txt"] (fun _ => true) (fun _ => true)
        (fun _ => true)).2.count (FileAction.moveSuccess "/w/a.txt") = 1) ∧
    ((fun (_ : String) => true) "/w/a.txt" = false →
      (processPendingFiles ["/w/a.txt"] (fun _ => true) (fun _ => true)
        (fun _ => true)).2.count (FileAction.moveError "/w/a.txt") = 1) :=
  claim1_ready_file_dispatched_once ["/w/a.txt"] (fun _ => true) (fun _ => true)
    (fun _ => true) "/w/a.txt" (by decide) (by decide) rfl

/-- C2: the drained batch contains exactly the pending paths that still
    exist, is a permutation of that filtered snapshot, is strictly
    ascending by basename (given the basenames are pairwise distinct, as
    they are for files of a single watched directory), and is independent
    of the order in which the paths were observed. -/
theorem claim2_drain_exact_sorted
    (pending : List String) (existsF : String → Bool)
    (hinj : (pending.filter existsF).Pairwise (fun a b => basename a ≠ basename b)) :
    (∀ p, p ∈ drainQueue pending existsF ↔ p ∈ pending ∧ existsF p = true) ∧
    (drainQueue pending existsF).Perm (pending.filter existsF) ∧
    List.Sorted basenameLtP (drainQueue pending existsF) ∧
    (∀ pending2, pending.Perm pending2 →
      drainQueue pending2 existsF = drainQueue pending existsF) :=
  ⟨fun _ => mem_drainQueue, drainQueue_perm pending existsF,
    drainQueue_sorted_strict pending existsF hinj,
    fun pending2 h => drainQueue_perm_invariant pending pending2 existsF hinj h⟩

/-- Witness for C2 at a two-element pending set observed out of order. -/
theorem claim2_witness :
    (∀ p, p ∈ drainQueue ["/w/zebra.txt", "/w/apple.txt"] (fun _ => true) ↔
      p ∈ ["/w/zebra.txt", "/w/apple.txt"] ∧ (fun (_ : String) => true) p = true) ∧
    (drainQueue ["/w/zebra.txt", "/w/apple.txt"] (fun _ => true)).Perm
      (["/w/zebra.txt", "/w/apple.txt"].filter (fun _ => true)) ∧
    List.Sorted basenameLtP (drainQueue ["/w/zebra.txt", "/w/apple.txt"] (fun _ => true)) ∧
    (∀ pending2, (["/w/zebra.txt", "/w/apple.txt"] : List String).Perm pending2 →
      drainQueue pending2 (fun _ => true) =
        drainQueue ["/w/zebra.txt", "/w/apple.txt"] (fun _ => true)) :=
  claim2_drain_exact_sorted ["/w/zebra.txt", "/w/apple.txt"] (fun _ => true) (by decide)

/-- C3: the readiness check yields `true` only when one attempt sees two
    existing, equal, non-zero size samples; a file whose size differs
    between the two samples of every attempt is therefore never
    dispatched, never relocated, and stays in the pending set. -/
theorem claim3_unstable_file_stays_pending
    (sizesOf : String → Nat → Option Nat) (pending : List String)
    (existsF printOk : String → Bool) (p : String)
    (hp : p ∈ pending)
    (hchange : ∀ k s1 s2, sizesOf p (2 * k) = some s1 →
      sizesOf p (2 * k + 1) = some s2 → s1 ≠ s2) :
    (∀ sizes maxAttempts, isFileReady sizes maxAttempts = true →
      ∃ k, k < maxAttempts ∧
        ∃ s, sizes (2 * k) = some s ∧ sizes (2 * k + 1) = some s ∧ 0 < s) ∧
    isFileReady (sizesOf p) 3 = false ∧
    p ∈ (processPendingFiles pending existsF
          (fun q => isFileReady (sizesOf q) 3) printOk).1 ∧
    FileAction.dispatch p ∉ (processPendingFiles pending existsF
          (fun q => isFileReady (sizesOf q) 3) printOk).2 ∧
    FileAction.moveSuccess p ∉ (processPendingFiles pending existsF
          (fun q => isFileReady (sizesOf q) 3) printOk).2 ∧
    FileAction.moveError p ∉ (processPendingFiles pending existsF
          (fun q => isFileReady (sizesOf q) 3) printOk).2 := by
  have hpend : pending ≠ [] := List.ne_nil_of_mem hp
  have hready : isFileReady (sizesOf p) 3 = false :=
    isFileReady_eq_false_of_changing (sizesOf p) 3 hchange
  simp only [processPendingFiles, if_neg hpend]
  refine ⟨fun sizes maxAttempts h => isFileReady_spec sizes maxAttempts h, hready, ?_, ?_, ?_, ?_⟩
  · exact processLoop_mem_preserved _ printOk _ pending p hp (Or.inl hready)
  · intro hmem
    rcases processLoop_dispatch_mem _ printOk _ pending p hmem with ⟨_, hr⟩
    rw [hready] at hr; cases hr
  · intro hmem
    rcases processLoop_moveSuccess_mem _ printOk _ pending p hmem with ⟨_, hr, _⟩
    rw [hready] at hr; cases hr
  · intro hmem
    rcases processLoop_moveError_mem _ printOk _ pending p hmem with ⟨_, hr, _⟩
    rw [hready] at hr; cases hr

/-- Witness for C3 with a file whose size grows at every sample. -/
theorem claim3_witness :
    (∀ sizes maxAttempts, isFileReady sizes maxAttempts = true →
      ∃ k, k < maxAttempts ∧
        ∃ s, sizes (2 * k) = some s ∧ sizes (2 * k + 1) = some s ∧ 0 < s) ∧
    isFileReady ((fun (_ : String) (k : Nat) => some (k + 1)) "/w/grow.txt") 3 = false ∧
    "/w/grow.txt" ∈ (processPendingFiles ["/w/grow.txt"] (fun _ => true)
          (fun q => isFileReady ((fun (_ : String) (k : Nat) => some (k + 1)) q) 3)
          (fun _ => true)).1 ∧
    FileAction.dispatch "/w/grow.txt" ∉ (processPendingFiles ["/w/grow.txt"] (fun _ => true)
          (fun q => isFileReady ((fun (_ : String) (k : Nat) => some (k + 1)) q) 3)
          (fun _ => true)).2 ∧
    FileAction.moveSuccess "/w/grow.txt" ∉ (processPendingFiles ["/w/grow.txt"] (fun _ => true)
          (fun q => isFileReady ((fun (_ : String) (k : Nat) => some (k + 1)) q) 3)
          (fun _ => true)).2 ∧
    FileAction.moveError "/w/grow.txt" ∉ (processPendingFiles ["/w/grow.txt"] (fun _ => true)
          (fun q => isFileReady ((fun (_ : String) (k : Nat) => some (k + 1)) q) 3)
          (fun _ => true)).2 :=
  claim3_unstable_file_stays_pending (fun _ k => some (k + 1)) ["/w/grow.txt"]
    (fun _ => true) (fun _ => true) "/w/grow.txt" (by decide)
    (fun k s1 s2 h1 h2 => by
      injection h1 with h1'; injection h2 with h2'; omega)

/-- C4 counterexample: a pending path whose backing file does not exist is
    NOT removed from the pending set by a drain — `process_pending_files`
    only filters it out of the processed snapshot (line 109) and never
    calls `discard` for it, so it is still pending afterwards. -/
theorem claim4_counterexample :
    "/w/gone.txt" ∉ drainQueue ["/w/gone.txt"] (fun _ => false) ∧
    "/w/gone.txt" ∈ (processPendingFiles ["/w/gone.txt"] (fun _ => false)
      (fun _ => true) (fun _ => true)).1 := by decide

/-- C4 amended: a pending path whose backing file no longer exists at
    drain time is silently excluded from the drained batch — no dispatch,
    no relocation, no error — but it REMAINS in the pending set. -/
theorem claim4_vanished_path_skipped_but_kept
    (pending : List String) (existsF ready printOk : String → Bool) (p : String)
    (hp : p ∈ pending) (hnx : existsF p = false) :
    p ∉ drainQueue pending existsF ∧
    p ∈ (processPendingFiles pending existsF ready printOk).1 ∧
    FileAction.dispatch p ∉ (processPendingFiles pending existsF ready printOk).2 ∧
    FileAction.moveSuccess p ∉ (processPendingFiles pending existsF ready printOk).2 ∧
    FileAction.moveError p ∉ (processPendingFiles pending existsF ready printOk).2 := by
  have hpend : pending ≠ [] := List.ne_nil_of_mem hp
  have hnotin : p ∉ drainQueue pending existsF := by
    intro hmem
    rw [(mem_drainQueue.mp hmem).2] at hnx
    cases hnx
  simp only [processPendingFiles, if_neg hpend]
  refine ⟨hnotin, ?_, ?_, ?_, ?_⟩
  · exact processLoop_mem_preserved ready printOk _ pending p hp (Or.inr hnotin)
  · intro hmem
    exact hnotin (processLoop_dispatch_mem ready printOk _ pending p hmem).1
  · intro hmem
    exact hnotin (processLoop_moveSuccess_mem ready printOk _ pending p hmem).1
  · intro hmem
    exact hnotin (processLoop_moveError_mem ready printOk _ pending p hmem).1

/-- Witness for the amended C4. -/
theorem claim4_witness :
    "/w/gone.txt" ∉ drainQueue ["/w/gone.txt"] (fun _ => false) ∧
    "/w/gone.txt" ∈ (processPendingFiles ["/w/gone.txt"] (fun _ => false)
      (fun _ => true) (fun _ => true)).1 ∧
    FileAction.dispatch "/w/gone.txt" ∉ (processPendingFiles ["/w/gone.txt"]
      (fun _ => false) (fun _ => true) (fun _ => true)).2 ∧
    FileAction.moveSuccess "/w/gone.txt" ∉ (processPendingFiles ["/w/gone.txt"]
      (fun _ => false) (fun _ => true) (fun _ => true)).2 ∧
    FileAction.moveError "/w/gone.txt" ∉ (processPendingFiles ["/w/gone.txt"]
      (fun _ => false) (fun _ => true) (fun _ => true)).2 :=
  claim4_vanished_path_skipped_but_kept ["/w/gone.txt"] (fun _ => false)
    (fun _ => true) (fun _ => true) "/w/gone.txt" (by decide) rfl

/-- C5: the relocation target is the first unused candidate — the plain
    filename, or `name_k.ext` for the least `k ≥ 1` whose candidate does
    not exist — and concretely `apple.txt` moved into a directory already
    holding `apple.txt` becomes `apple_1.txt`, a third occurrence
    `apple_2.txt`. -/
theorem claim5_collision_numeric_suffix :
    (∀ (existsF : String → Bool) (dir srcPath : String) (fuel : Nat) (d : String),
      moveDestination existsF dir srcPath fuel = some d →
      ∃ j, j < fuel ∧ d = destCandidate dir (basename srcPath) j ∧ existsF d = false ∧
        ∀ i, i < j → existsF (destCandidate dir (basename srcPath) i) = true) ∧
    (∀ dir filename k,
      destCandidate dir filename (k + 1) =
        osJoin dir ((splitext filename).1 ++ "_" ++ toString (k + 1) ++
          (splitext filename).2)) ∧
    moveDestination (fun p => p == "S/apple.txt") "S" "/w/apple.txt" 10
      = some "S/apple_1.txt" ∧
    moveDestination (fun p => p == "S/apple.txt" || p == "S/apple_1.txt") "S"
      "/w/apple.txt" 10 = some "S/apple_2.txt" := by
  refine ⟨?_, fun dir filename k => rfl, by decide, by decide⟩
  intro existsF dir srcPath fuel d h
  rcases resolveDestLoop_spec existsF dir (basename srcPath) fuel 0 d h with
    ⟨j, _, hj2, hd, hex, hall⟩
  exact ⟨j, by omega, hd, hex, fun i hi => hall i (Nat.zero_le i) hi⟩

/-- Witness for C5's universally quantified part, at the `apple_1.txt`
    scenario. -/
theorem claim5_witness :
    ∃ j, j < 10 ∧
      "S/apple_1.txt" = destCandidate "S" (basename "/w/apple.txt") j ∧
      (fun p => p == "S/apple.txt") "S/apple_1.txt" = false ∧
      ∀ i, i < j →
        (fun p => p == "S/apple.txt") (destCandidate "S" (basename "/w/apple.txt") i) = true :=
  claim5_collision_numeric_suffix.1 (fun p => p == "S/apple.txt") "S" "/w/apple.txt"
    10 "S/apple_1.txt" (by decide)

/-- C7: with no configured printer and no resolvable default printer,
    `print_file` returns a failure outcome (it does not raise), and the
    drain relocates the file to the error folder exactly once and removes
    it from the pending set. -/
theorem claim7_absent_default_printer_error
    (system : String) (submitOk : String → Bool) (pending : List String)
    (existsF ready : String → Bool) (p : String)
    (hnd : pending.Nodup) (hp : p ∈ drainQueue pending existsF) (hr : ready p = true) :
    printFile none none system submitOk p = false ∧
    (processPendingFiles pending existsF ready
      (printFile none none system submitOk)).2.count (FileAction.moveError p) = 1 ∧
    p ∉ (processPendingFiles pending existsF ready
      (printFile none none system submitOk)).1 := by
  have hpf : printFile none none system submitOk p = false := rfl
  have hpend : pending ≠ [] := List.ne_nil_of_mem (mem_drainQueue.mp hp).1
  have hnd' := drainQueue_nodup existsF hnd
  simp only [processPendingFiles, if_neg hpend]
  refine ⟨hpf, ?_, ?_⟩
  · rw [processLoop_count_moveError ready _ _ pending p hnd']
    rw [if_pos ⟨hp, hr, hpf⟩]
  · exact processLoop_removed ready _ _ pending p hp hr

/-- Witness for C7 with the file `report.pdf` pending on Linux. -/
theorem claim7_witness :
    printFile none none "Linux" (fun _ => true) "/w/report.pdf" = false ∧
    (processPendingFiles ["/w/report.pdf"] (fun _ => true) (fun _ => true)
      (printFile none none "Linux" (fun _ => true))).2.count
        (FileAction.moveError "/w/report.pdf") = 1 ∧
    "/w/report.pdf" ∉ (processPendingFiles ["/w/report.pdf"] (fun _ => true)
      (fun _ => true) (printFile none none "Linux" (fun _ => true))).1 :=
  claim7_absent_default_printer_error "Linux" (fun _ => true) ["/w/report.pdf"]
    (fun _ => true) (fun _ => true) "/w/report.pdf" (by decide) (by decide) rfl

/-- A string whose data starts with `sub`'s data contains `sub`. -/
theorem strContains_of_data (s sub : String) (tail : List Char)
    (h : s.data = sub.data ++ tail) : strContains s sub = true := by
  unfold strContains
  rw [List.any_eq_true]
  refine ⟨0, List.mem_range.mpr (Nat.succ_pos _), ?_⟩
  rw [List.drop_zero, h]
  exact isPrefixOf_append_self sub.data tail

/-- C8: a creation event for a path inside the hot folder's own success
    or error directory never adds the path to the pending set — the
    directory path is then a substring of the event path, so the line
    95–97 filter drops it. -/
theorem claim8_own_folders_never_pending (cfg : HotFolderCfg) (pending : List String)
    (isDirectory : Bool) (path rest : String)
    (h : path = cfg.successFolder ++ "/" ++ rest ∨
         path = cfg.errorFolder ++ "/" ++ rest) :
    onCreated cfg pending isDirectory path = pending := by
  unfold onCreated
  by_cases hd : isDirectory = true
  · rw [if_pos hd]
  · rw [if_neg hd]
    have hcont : (strContains path cfg.successFolder ||
        strContains path cfg.errorFolder) = true := by
      rcases h with h | h
      · have : strContains path cfg.successFolder = true := by
          apply strContains_of_data path cfg.successFolder ('/' :: rest.data)
          subst h
          simp [String.data_append]
        simp [this]
      · have : strContains path cfg.errorFolder = true := by
          apply strContains_of_data path cfg.errorFolder ('/' :: rest.data)
          subst h
          simp [String.data_append]
        simp [this]
    simp [hcont]

/-- Witness for C8: a file created inside the success folder. -/
theorem claim8_witness :
    onCreated ⟨"hot", "/hot", none, "/hot/Success", "/hot/Error"⟩
      ["/hot/other.txt"] false "/hot/Success/x.txt" = ["/hot/other.txt"] :=
  claim8_own_folders_never_pending ⟨"hot", "/hot", none, "/hot/Success", "/hot/Error"⟩
    ["/hot/other.txt"] false "/hot/Success/x.txt" "x.txt" (Or.inl rfl)

/-- The claim's notion of a path residing inside a directory (stated from
    the spec's words, for comparison with the code's substring test):
    the directory path followed by a separator starts the path. -/
def residesIn (dir path : String) : Bool :=
  (dir ++ "/").data.isPrefixOf path.data

/-- The hot-folder configuration used by the C9 scenario. -/
def watchedCfg : HotFolderCfg :=
  ⟨"hot", "/hot", none, "/hot/Success", "/hot/Error"⟩

/-- C9: the line 95–97 filter tests substring containment, not directory
    containment: the file `Success_extra.txt` created directly in the
    watched directory `/hot` (its path is `join("/hot", name)`) resides
    in neither the success nor the error directory, yet is never added to
    the pending set because `/hot/Success` occurs in its path. -/
theorem claim9_substring_filter_overmatches : ∀ pending : List String,
    onCreated watchedCfg pending false "/hot/Success_extra.txt" = pending ∧
    residesIn watchedCfg.successFolder "/hot/Success_extra.txt" = false ∧
    residesIn watchedCfg.errorFolder "/hot/Success_extra.txt" = false ∧
    "/hot/Success_extra.txt" = osJoin watchedCfg.watchPath "Success_extra.txt" := by
  intro pending
  refine ⟨?_, by decide, by decide, by decide⟩
  have hcont : (strContains "/hot/Success_extra.txt" watchedCfg.successFolder ||
      strContains "/hot/Success_extra.txt" watchedCfg.errorFolder) = true := by decide
  unfold onCreated
  simp [hcont]

/-- C10: a configuration document that is a JSON object but lacks the
    `poll_interval` key, the `hot_folders` key, or both, loads without
    error: the poll interval defaults to 5 and/or the hot-folder list to
    empty. -/
theorem claim10_missing_keys_default (fields : List (String × JValue)) :
    (jIndex fields "poll_interval" = none → jIndex fields "hot_folders" = none →
      loadConfig (.obj fields) = .ok (.num 5, [])) ∧
    (∀ v, jIndex fields "poll_interval" = some v → jIndex fields "hot_folders" = none →
      loadConfig (.obj fields) = .ok (v, [])) ∧
    (∀ entries folders, jIndex fields "poll_interval" = none →
      jIndex fields "hot_folders" = some (.arr entries) →
      entries.mapM parseHotFolderEntry = .ok folders →
      loadConfig (.obj fields) = .ok (.num 5, folders)) := by
  refine ⟨?_, ?_, ?_⟩
  · intro h1 h2
    simp [loadConfig, h1, h2]
    rfl
  · intro v h1 h2
    simp [loadConfig, h1, h2]
    rfl
  · intro entries folders h1 h2 h3
    have h3' : List.mapM.loop parseHotFolderEntry entries [] = Except.ok folders := h3
    simp [loadConfig, h1, h2, h3']

/-- Witness for C10: the empty JSON object. -/
theorem claim10_witness : loadConfig (.obj []) = .ok (.num 5, []) :=
  (claim10_missing_keys_default []).1 rfl rfl
